/-
  Verification of the blueprint-auto-annotator room-detection core.

  Shallow embedding of:
  * `YOLOInference.merge_nearby_detections` and `YOLOInference._calculate_iou_pixels`
    (src/backend/lambda-room-detection-v2/app/yolo_inference.py),
  * `GeometricRoomDetector.__init__`, `_draw_walls`, `_extract_rooms`,
    `_calculate_confidence` (src/backend/lambda-room-detection/app/geometric.py).

  Machine reals are modelled by exact rationals, machine ints by ℤ/ℕ.
-/
import Mathlib

namespace YOLOInference

/-- Pixel-coordinate bounding box `[x1, y1, x2, y2]`, as carried in the
`bounding_box_pixels` field of a detection dict. -/
structure BoxP where
  x1 : ℤ
  y1 : ℤ
  x2 : ℤ
  y2 : ℤ
  deriving DecidableEq, Repr

/-- A detection dict as produced by `run_inference` / `merge_nearby_detections`:
`bounding_box` (0–1000-normalized ints), `bounding_box_pixels`, `confidence`,
`class_id`, `class_name`, `shape_type`. -/
structure Detection where
  boundingBox : List ℤ
  boundingBoxPixels : BoxP
  confidence : ℚ
  classId : ℤ
  className : String
  shapeType : String
  deriving DecidableEq, Repr

/-- Python `int(q)`: truncation of a real toward zero. -/
def ratTrunc (q : ℚ) : ℤ :=
  if q < 0 then -⌊-q⌋ else ⌊q⌋

/-- Python `int((v / dim) * 1000)` — normalization of a pixel coordinate to 0–1000. -/
def normCoord (v dim : ℤ) : ℤ :=
  ratTrunc ((v : ℚ) / (dim : ℚ) * 1000)

/-- Embedding of `YOLOInference._calculate_iou_pixels`: IoU of two pixel boxes. -/
def calculateIouPixels (box1 box2 : BoxP) : ℚ :=
  let x1i := max box1.x1 box2.x1
  let y1i := max box1.y1 box2.y1
  let x2i := min box1.x2 box2.x2
  let y2i := min box1.y2 box2.y2
  if x2i ≤ x1i ∨ y2i ≤ y1i then 0
  else
    let intersection := (x2i - x1i) * (y2i - y1i)
    let area1 := (box1.x2 - box1.x1) * (box1.y2 - box1.y1)
    let area2 := (box2.x2 - box2.x1) * (box2.y2 - box2.y1)
    let union := area1 + area2 - intersection
    if union = 0 then 0 else (intersection : ℚ) / (union : ℚ)

/-- Coordinate-wise union of two boxes: `[min x1s, min y1s, max x2s, max y2s]`. -/
def unionBox (a b : BoxP) : BoxP :=
  ⟨min a.x1 b.x1, min a.y1 b.y1, max a.x2 b.x2, max a.y2 b.y2⟩

/-- The inner `for j, det2 in enumerate(sorted_detections[i+1:], ...)` loop of
`merge_nearby_detections`: scans the not-yet-consumed lower-ranked detections in
order; any whose IoU with the seed detection's original box (`det1['bounding_box_pixels']`)
is `≥ merge_threshold` is absorbed (box := union, running confidence-weighted
average, count+1) and consumed; the rest are returned, in order, for later
outer-loop iterations. Returns `(merged_box, merged_conf, count, unconsumed)`. -/
def absorbScan (seedBox : BoxP) (t : ℚ) :
    BoxP → ℚ → ℕ → List Detection → BoxP × ℚ × ℕ × List Detection
  | mbox, conf, count, [] => (mbox, conf, count, [])
  | mbox, conf, count, e :: es =>
    if t ≤ calculateIouPixels seedBox e.boundingBoxPixels then
      absorbScan seedBox t (unionBox mbox e.boundingBoxPixels)
        ((conf * (count : ℚ) + e.confidence) / ((count : ℚ) + 1)) (count + 1) es
    else
      let r := absorbScan seedBox t mbox conf count es
      (r.1, r.2.1, r.2.2.1, e :: r.2.2.2)

/-- Rebuild of the merged detection dict appended by the outer loop:
normalized box recomputed from the merged pixel box; `class_id`/`class_name`
taken from the seed detection; `shape_type` fixed to `"rectangle"`. -/
def mkMergedDetection (imageWidth imageHeight : ℤ) (b : BoxP) (conf : ℚ)
    (d : Detection) : Detection :=
  { boundingBox := [normCoord b.x1 imageWidth, normCoord b.y1 imageHeight,
      normCoord b.x2 imageWidth, normCoord b.y2 imageHeight]
    boundingBoxPixels := b
    confidence := conf
    classId := d.classId
    className := d.className
    shapeType := "rectangle" }

/-- Fuel-indexed outer loop of `merge_nearby_detections` over the sorted list:
each step takes the highest-confidence unconsumed detection as seed, absorbs
matching lower-ranked detections via `absorbScan`, and emits one merged
detection.  The fuel is only a structural-recursion device; it is always run
with fuel ≥ list length, which suffices since the unconsumed remainder never
grows (`absorbScan_length_le`). -/
def mergeLoopF (imageWidth imageHeight : ℤ) (t : ℚ) : ℕ → List Detection → List Detection
  | 0, _ => []
  | _ + 1, [] => []
  | fuel + 1, d :: rest =>
    let r := absorbScan d.boundingBoxPixels t d.boundingBoxPixels d.confidence 1 rest
    mkMergedDetection imageWidth imageHeight r.1 r.2.1 d ::
      mergeLoopF imageWidth imageHeight t fuel r.2.2.2

/-- Python `sorted(detections, key=lambda x: x['confidence'], reverse=True)`:
stable sort by descending confidence (Python's `sorted` is stable; insertion
sort with this relation realizes exactly that order). -/
def sortByConfDesc (dets : List Detection) : List Detection :=
  List.insertionSort (fun a b => b.confidence ≤ a.confidence) dets

/-- Embedding of `YOLOInference.merge_nearby_detections`. -/
def mergeNearbyDetections (detections : List Detection)
    (imageWidth imageHeight : ℤ) (mergeThreshold : ℚ) : List Detection :=
  if detections.length ≤ 1 then detections
  else
    let sortedDetections := sortByConfDesc detections
    mergeLoopF imageWidth imageHeight mergeThreshold
      sortedDetections.length sortedDetections

end YOLOInference

namespace GeometricRoomDetector

/-- Constructor parameters of `GeometricRoomDetector.__init__`
(`min_room_area`, `kernel_size`, `epsilon_factor`), stored unchecked. -/
structure Config where
  minRoomArea : ℤ
  kernelSize : ℤ
  epsilonFactor : ℚ
  deriving DecidableEq, Repr

/-- The only failure `__init__` can produce: `np.ones((kernel_size, kernel_size))`
raises numpy's `ValueError: negative dimensions are not allowed` when
`kernel_size < 0`.  No other parameter is inspected. -/
inductive InitError where
  | negativeKernelDimension
  deriving DecidableEq, Repr

/-- Embedding of `GeometricRoomDetector.__init__`: stores the three parameters without any
validation; building the `kernel_size × kernel_size` numpy kernel fails only
for a negative size. -/
def init (minRoomArea kernelSize : ℤ) (epsilonFactor : ℚ) : Except InitError Config :=
  if kernelSize < 0 then .error .negativeKernelDimension
  else .ok ⟨minRoomArea, kernelSize, epsilonFactor⟩

/-- Clamp of one coordinate in `_draw_walls`: `max(0, min(v, bound - 1))`. -/
def clampCoord (v bound : ℤ) : ℤ :=
  max 0 (min v (bound - 1))

/-- Whether `cv2.rectangle(grid, (x1,y1), (x2,y2), 255, -1)` paints pixel `p`
after `_draw_walls` clamped the wall box `wall` to the `w × h` grid:
the filled rectangle covers every pixel between the two (order-normalized)
corners, corners included. -/
def wallPaints (w h : ℤ) (wall : YOLOInference.BoxP) (p : ℤ × ℤ) : Bool :=
  let cx1 := clampCoord wall.x1 w
  let cx2 := clampCoord wall.x2 w
  let cy1 := clampCoord wall.y1 h
  let cy2 := clampCoord wall.y2 h
  decide (min cx1 cx2 ≤ p.1 ∧ p.1 ≤ max cx1 cx2 ∧
    min cy1 cy2 ≤ p.2 ∧ p.2 ≤ max cy1 cy2)

/-- Effect of `_draw_walls` on the all-zero grid of `_create_grid`, as the characteristic
function of the painted (255) pixels: a pixel is white iff some wall's clamped
rectangle covers it. -/
def drawWalls (walls : List YOLOInference.BoxP) (w h : ℤ) (p : ℤ × ℤ) : Bool :=
  walls.any (fun wall => wallPaints w h wall p)

/-- One row of `cv2.connectedComponentsWithStats` output, zipping
`stats[label]` (`x, y, w, h, area`) with `centroids[label]` (`cx, cy`);
the list index is the component label. -/
structure CompStat where
  x : ℤ
  y : ℤ
  w : ℤ
  h : ℤ
  area : ℕ
  cx : ℚ
  cy : ℚ
  deriving DecidableEq, Repr

/-- A `Room` record as built by `_extract_rooms`.  `idNum` is the numeric part
`n` of the Python id string `f"room_{n:03d}"` (that formatting is injective, so
id equality is `idNum` equality); `label` is ghost bookkeeping recording the
loop variable `label` of the component the room was built from. -/
structure RoomRec where
  idNum : ℕ
  vertices : List (ℤ × ℤ)
  bboxXMin : ℤ
  bboxYMin : ℤ
  bboxXMax : ℤ
  bboxYMax : ℤ
  areaPixels : ℕ
  centroid : ℤ × ℤ
  confidence : ℚ
  shapeType : String
  numVertices : ℕ
  label : ℕ
  deriving DecidableEq, Repr

/-- Round-half-even of a rational to an integer (Python 3 `round`). -/
def roundHalfEven (q : ℚ) : ℤ :=
  let f := q - ⌊q⌋
  if f < 1/2 then ⌊q⌋
  else if 1/2 < f then ⌊q⌋ + 1
  else if Even ⌊q⌋ then ⌊q⌋ else ⌊q⌋ + 1

/-- Python `round(q, 2)`. -/
def round2 (q : ℚ) : ℚ :=
  (roundHalfEven (q * 100) : ℚ) / 100

/-- Embedding of `GeometricRoomDetector._calculate_confidence`: weighted blend of an area
score and a vertex-count score, rounded to two decimals. -/
def calculateConfidence (area : ℕ) (numVertices : ℕ) : ℚ :=
  let areaScore := min ((area : ℚ) / 50000) 1
  let vertexScore := 1 - ((min numVertices 20 : ℕ) : ℚ) / 20 * (3/10)
  round2 (areaScore * (7/10) + vertexScore * (3/10))

/-- The `shape_type` computed from the simplified vertex count (this variant's cutoffs:
`4 → rectangle`, `≤ 6 → l_shape`, else `complex`). -/
def shapeTypeOf (numVertices : ℕ) : String :=
  if numVertices = 4 then "rectangle"
  else if numVertices ≤ 6 then "l_shape"
  else "complex"

/-- The `for label in range(1, num_labels)` loop body of `_extract_rooms`.
`contourPoly label` models the result of `cv2.findContours` on the label's mask
followed by `max(..., key=contourArea)` and `cv2.approxPolyDP` (external OpenCV
primitives): `none` is the `if not contours: continue` skip, `some verts` the
simplified polygon.  `label` is the current loop label, `k` the number of rooms
appended so far (`len(rooms)`, which numbers the ids), `cs` the remaining
`stats`/`centroids` rows. -/
def extractLoop (minRoomArea : ℤ) (maxArea : ℚ)
    (contourPoly : ℕ → Option (List (ℤ × ℤ))) :
    ℕ → ℕ → List CompStat → List RoomRec
  | _, _, [] => []
  | label, k, c :: cs =>
    if (c.area : ℤ) < minRoomArea ∨ (c.area : ℚ) > maxArea then
      extractLoop minRoomArea maxArea contourPoly (label + 1) k cs
    else
      match contourPoly label with
      | none => extractLoop minRoomArea maxArea contourPoly (label + 1) k cs
      | some verts =>
        let nv := verts.length
        { idNum := k + 1
          vertices := verts
          bboxXMin := c.x, bboxYMin := c.y, bboxXMax := c.x + c.w, bboxYMax := c.y + c.h
          areaPixels := c.area
          centroid := (YOLOInference.ratTrunc c.cx, YOLOInference.ratTrunc c.cy)
          confidence := calculateConfidence c.area nv
          shapeType := shapeTypeOf nv
          numVertices := nv
          label := label } ::
          extractLoop minRoomArea maxArea contourPoly (label + 1) (k + 1) cs

/-- Python `rooms.sort(key=lambda r: r.area_pixels, reverse=True)`: stable sort by
descending `area_pixels` (Python's list sort is stable). -/
def sortRoomsDesc (rooms : List RoomRec) : List RoomRec :=
  List.insertionSort (fun a b => b.areaPixels ≤ a.areaPixels) rooms

/-- Embedding of `GeometricRoomDetector._extract_rooms`: skip the background row (label 0),
filter each component by `min_room_area ≤ area ≤ 0.9 * width * height`, build a
room per surviving component with sequential ids, then sort by descending area. -/
def extractRooms (cfg : Config) (comps : List CompStat)
    (contourPoly : ℕ → Option (List (ℤ × ℤ))) (width height : ℤ) : List RoomRec :=
  let maxArea : ℚ := (width : ℚ) * (height : ℚ) * (9/10)
  sortRoomsDesc (extractLoop cfg.minRoomArea maxArea contourPoly 1 0 (comps.drop 1))

/-- Number of grid pixels carrying a given label; the `area` column that
`cv2.connectedComponentsWithStats` reports for that label.  Modelled from the
spec: §4.5's Component Labeler contract (per-label pixel count over the mask);
the labeling matrix `L` itself stands for the cv2 output. -/
def labelArea (L : ℕ → ℕ → ℕ) (w h : ℕ) (l : ℕ) : ℕ :=
  ((Finset.range w ×ˢ Finset.range h).filter (fun p => L p.1 p.2 = l)).card

/-- X-coordinates of a label's pixels (for the stats bounding box). -/
def labelPixels (L : ℕ → ℕ → ℕ) (w h : ℕ) (l : ℕ) : Finset (ℕ × ℕ) :=
  (Finset.range w ×ˢ Finset.range h).filter (fun p => L p.1 p.2 = l)

/-- The `stats`/`centroids` rows of `cv2.connectedComponentsWithStats` for
labels `0 .. numLabels-1`, derived from a labeling matrix `L` of the `w × h`
grid.  Modelled from the spec: §4.5's contract (axis-aligned bounding box,
pixel count, centroid = mean of member pixels) for each label of the cv2
labeling; empty labels get zero rows. -/
def statsFromLabeling (L : ℕ → ℕ → ℕ) (w h : ℕ) (numLabels : ℕ) : List CompStat :=
  (List.range numLabels).map (fun l =>
    let px := labelPixels L w h l
    let xs := px.image Prod.fst
    let ys := px.image Prod.snd
    { x := ((xs.min.getD 0 : ℕ) : ℤ)
      y := ((ys.min.getD 0 : ℕ) : ℤ)
      w := ((xs.max.getD 0 + 1 - xs.min.getD 0 : ℕ) : ℤ)
      h := ((ys.max.getD 0 + 1 - ys.min.getD 0 : ℕ) : ℤ)
      area := px.card
      cx := (∑ p ∈ px, (p.1 : ℚ)) / (px.card : ℚ)
      cy := (∑ p ∈ px, (p.2 : ℚ)) / (px.card : ℚ) })

/-- Steps 5–6 of `detect_rooms` with the cv2 labeling abstracted as `L`:
component stats from the labeling, then `_extract_rooms`. -/
def detectRoomsFromLabeling (cfg : Config) (L : ℕ → ℕ → ℕ) (numLabels : ℕ)
    (contourPoly : ℕ → Option (List (ℤ × ℤ))) (w h : ℕ) : List RoomRec :=
  extractRooms cfg (statsFromLabeling L w h numLabels) contourPoly (w : ℤ) (h : ℤ)

end GeometricRoomDetector

namespace YOLOInference

lemma inter_le_area {ax1 ax2 bx1 bx2 ay1 ay2 by1 by2 : ℤ}
    (hx : max ax1 bx1 < min ax2 bx2) (hy : max ay1 by1 < min ay2 by2) :
    (min ax2 bx2 - max ax1 bx1) * (min ay2 by2 - max ay1 by1) ≤
      (ax2 - ax1) * (ay2 - ay1) := by
  have h1 : min ax2 bx2 ≤ ax2 := min_le_left _ _
  have h2 : ax1 ≤ max ax1 bx1 := le_max_left _ _
  have h3 : min ay2 by2 ≤ ay2 := min_le_left _ _
  have h4 : ay1 ≤ max ay1 by1 := le_max_left _ _
  have hx' : (0 : ℤ) ≤ min ax2 bx2 - max ax1 bx1 := by linarith
  have hy' : (0 : ℤ) ≤ min ay2 by2 - max ay1 by1 := by linarith
  have hdx : min ax2 bx2 - max ax1 bx1 ≤ ax2 - ax1 := by linarith
  have hdy : min ay2 by2 - max ay1 by1 ≤ ay2 - ay1 := by linarith
  exact mul_le_mul hdx hdy hy' (by linarith)

lemma inter_le_area' {ax1 ax2 bx1 bx2 ay1 ay2 by1 by2 : ℤ}
    (hx : max ax1 bx1 < min ax2 bx2) (hy : max ay1 by1 < min ay2 by2) :
    (min ax2 bx2 - max ax1 bx1) * (min ay2 by2 - max ay1 by1) ≤
      (bx2 - bx1) * (by2 - by1) := by
  rw [max_comm ax1 bx1, max_comm ay1 by1, min_comm ax2 bx2, min_comm ay2 by2] at *
  exact inter_le_area hx hy

/-- The function `_calculate_iou_pixels` never returns a negative value. -/
lemma calculateIouPixels_nonneg (a b : BoxP) : 0 ≤ calculateIouPixels a b := by
  unfold calculateIouPixels
  dsimp only
  split_ifs with h h0
  · exact le_refl 0
  · exact le_refl 0
  · push_neg at h
    obtain ⟨hx, hy⟩ := h
    have hinter : (0 : ℤ) < (min a.x2 b.x2 - max a.x1 b.x1) * (min a.y2 b.y2 - max a.y1 b.y1) :=
      mul_pos (by linarith) (by linarith)
    have h1 := inter_le_area hx hy
    have h2 := inter_le_area' hx hy
    apply div_nonneg
    · exact_mod_cast le_of_lt hinter
    · have : (0 : ℤ) ≤ (a.x2 - a.x1) * (a.y2 - a.y1) + (b.x2 - b.x1) * (b.y2 - b.y1) -
          (min a.x2 b.x2 - max a.x1 b.x1) * (min a.y2 b.y2 - max a.y1 b.y1) := by linarith
      exact_mod_cast this

/-- The function `_calculate_iou_pixels` never exceeds 1. -/
lemma calculateIouPixels_le_one (a b : BoxP) : calculateIouPixels a b ≤ 1 := by
  unfold calculateIouPixels
  dsimp only
  split_ifs with h h0
  · exact zero_le_one
  · exact zero_le_one
  · push_neg at h
    obtain ⟨hx, hy⟩ := h
    have hinter : (0 : ℤ) < (min a.x2 b.x2 - max a.x1 b.x1) * (min a.y2 b.y2 - max a.y1 b.y1) :=
      mul_pos (by linarith) (by linarith)
    have h1 := inter_le_area hx hy
    have h2 := inter_le_area' hx hy
    rw [div_le_one]
    · have : (min a.x2 b.x2 - max a.x1 b.x1) * (min a.y2 b.y2 - max a.y1 b.y1) ≤
          (a.x2 - a.x1) * (a.y2 - a.y1) + (b.x2 - b.x1) * (b.y2 - b.y1) -
          (min a.x2 b.x2 - max a.x1 b.x1) * (min a.y2 b.y2 - max a.y1 b.y1) := by linarith
      exact_mod_cast this
    · have : (0 : ℤ) < (a.x2 - a.x1) * (a.y2 - a.y1) + (b.x2 - b.x1) * (b.y2 - b.y1) -
          (min a.x2 b.x2 - max a.x1 b.x1) * (min a.y2 b.y2 - max a.y1 b.y1) := by
        rcases lt_or_eq_of_le (le_of_lt hinter) with h' | h'
        · linarith
        · linarith
      exact_mod_cast this

/-- C9: `_calculate_iou_pixels` returns `0.0` whenever the intersection
rectangle is empty (boxes do not overlap) or the computed union is `0`; its
result is never negative (the function is total, so it never raises); and a
malformed first box with `x1 ≥ x2` or `y1 ≥ y2` always yields `0.0` — the
negative extent makes the intersection test fail, so the degenerate case is
non-crashing and returns exactly `0.0`. -/
theorem iou_edge_cases (box1 box2 : BoxP) :
    ((min box1.x2 box2.x2 ≤ max box1.x1 box2.x1 ∨
        min box1.y2 box2.y2 ≤ max box1.y1 box2.y1) →
      calculateIouPixels box1 box2 = 0) ∧
    0 ≤ calculateIouPixels box1 box2 ∧
    ((box1.x2 ≤ box1.x1 ∨ box1.y2 ≤ box1.y1) →
      calculateIouPixels box1 box2 = 0) := by
  refine ⟨fun h => ?_, calculateIouPixels_nonneg box1 box2, fun h => ?_⟩
  · unfold calculateIouPixels
    rw [if_pos h]
  · unfold calculateIouPixels
    rw [if_pos]
    rcases h with h | h
    · exact Or.inl (le_trans (min_le_left _ _) (le_trans h (le_max_left _ _)))
    · exact Or.inr (le_trans (min_le_left _ _) (le_trans h (le_max_left _ _)))

/-- Witness for `iou_edge_cases`: a malformed box (`x1 = 10 ≥ x2 = 0`) against a
well-formed one, and a disjoint well-formed pair, both yield IoU `0.0`. -/
theorem iou_edge_cases_witness :
    ((10 : ℤ) ≥ 0 ∧
      calculateIouPixels ⟨10, 0, 0, 10⟩ ⟨0, 0, 5, 5⟩ = 0) ∧
    (min (5 : ℤ) 25 ≤ max 0 20 ∧
      calculateIouPixels ⟨0, 0, 5, 5⟩ ⟨20, 0, 25, 5⟩ = 0) :=
  ⟨⟨by decide, (iou_edge_cases ⟨10, 0, 0, 10⟩ ⟨0, 0, 5, 5⟩).2.2 (Or.inl (by decide))⟩,
   ⟨by decide, (iou_edge_cases ⟨0, 0, 5, 5⟩ ⟨20, 0, 25, 5⟩).1 (Or.inl (by decide))⟩⟩

/-- The unconsumed remainder returned by the inner scan never grows. -/
lemma absorbScan_length_le (seedBox : BoxP) (t : ℚ) :
    ∀ (mbox : BoxP) (conf : ℚ) (count : ℕ) (l : List Detection),
      (absorbScan seedBox t mbox conf count l).2.2.2.length ≤ l.length := by
  intro mbox conf count l
  induction l generalizing mbox conf count with
  | nil => simp [absorbScan]
  | cons e es ih =>
    unfold absorbScan
    split_ifs with h
    · exact le_trans (ih _ _ _) (Nat.le_succ _)
    · simpa using ih mbox conf count

/-- Each outer-loop step consumes at least its seed, so the output of the
greedy loop is never longer than its input. -/
lemma mergeLoopF_length_le (w h : ℤ) (t : ℚ) :
    ∀ (fuel : ℕ) (l : List Detection),
      (mergeLoopF w h t fuel l).length ≤ l.length := by
  intro fuel
  induction fuel with
  | zero => intro l; simp [mergeLoopF]
  | succ fuel ih =>
    intro l
    cases l with
    | nil => simp [mergeLoopF]
    | cons d rest =>
      unfold mergeLoopF
      simp only [List.length_cons, Nat.succ_le_succ_iff]
      exact le_trans (ih _) (absorbScan_length_le _ _ _ _ _ _)

/-- The function `merge_nearby_detections` never returns more detections than it was given. -/
lemma mergeNearbyDetections_length_le (D : List Detection) (w h : ℤ) (t : ℚ) :
    (mergeNearbyDetections D w h t).length ≤ D.length := by
  unfold mergeNearbyDetections
  split_ifs with hlen
  · exact le_refl _
  · calc (mergeLoopF w h t (sortByConfDesc D).length (sortByConfDesc D)).length
        ≤ (sortByConfDesc D).length := mergeLoopF_length_le _ _ _ _ _
      _ = D.length := (List.perm_insertionSort _ D).length_eq

/-- If two thresholds decide every IoU comparison alike, the inner scan cannot
tell them apart. -/
lemma absorbScan_congr {t t' : ℚ}
    (hcond : ∀ a b : BoxP, (t ≤ calculateIouPixels a b) ↔ (t' ≤ calculateIouPixels a b))
    (seedBox : BoxP) :
    ∀ (mbox : BoxP) (conf : ℚ) (count : ℕ) (l : List Detection),
      absorbScan seedBox t mbox conf count l = absorbScan seedBox t' mbox conf count l := by
  intro mbox conf count l
  induction l generalizing mbox conf count with
  | nil => rfl
  | cons e es ih =>
    unfold absorbScan
    by_cases h : t ≤ calculateIouPixels seedBox e.boundingBoxPixels
    · rw [if_pos h, if_pos ((hcond _ _).mp h), ih]
    · rw [if_neg h, if_neg (fun h' => h ((hcond _ _).mpr h')), ih]

/-- If two thresholds decide every IoU comparison alike, the whole greedy loop
cannot tell them apart. -/
lemma mergeLoopF_congr {t t' : ℚ} (w h : ℤ)
    (hcond : ∀ a b : BoxP, (t ≤ calculateIouPixels a b) ↔ (t' ≤ calculateIouPixels a b)) :
    ∀ (fuel : ℕ) (l : List Detection),
      mergeLoopF w h t fuel l = mergeLoopF w h t' fuel l := by
  intro fuel
  induction fuel with
  | zero => intro l; rfl
  | succ fuel ih =>
    intro l
    cases l with
    | nil => rfl
    | cons d rest =>
      unfold mergeLoopF
      dsimp only
      rw [absorbScan_congr hcond, ih]

/-- C1 (confirmed instance): merging two detections whose boxes overlap at
least at the threshold.  The higher-confidence detection (first after the
stable descending-confidence sort) seeds the cluster, the other is consumed,
and the single output detection carries the coordinate-wise union of the two
boxes and the confidence-weighted average `(c1*1 + c2)/(1+1) = (c1+c2)/2`;
`class_id`/`class_name` come from the seed. -/
theorem merge_two_overlapping (d1 d2 : Detection) (w h : ℤ) (t : ℚ)
    (hc : d2.confidence ≤ d1.confidence)
    (hiou : t ≤ calculateIouPixels d1.boundingBoxPixels d2.boundingBoxPixels) :
    mergeNearbyDetections [d1, d2] w h t =
      [mkMergedDetection w h (unionBox d1.boundingBoxPixels d2.boundingBoxPixels)
        ((d1.confidence + d2.confidence) / 2) d1] := by
  have hsort : sortByConfDesc [d1, d2] = [d1, d2] := by
    unfold sortByConfDesc
    simp [List.insertionSort, List.orderedInsert, hc]
  unfold mergeNearbyDetections
  rw [if_neg (by simp)]
  dsimp only
  rw [hsort]
  have habs : absorbScan d1.boundingBoxPixels t d1.boundingBoxPixels d1.confidence 1 [d2] =
      (unionBox d1.boundingBoxPixels d2.boundingBoxPixels,
        (d1.confidence * ((1 : ℕ) : ℚ) + d2.confidence) / (((1 : ℕ) : ℚ) + 1), 2, []) := by
    unfold absorbScan
    rw [if_pos hiou]
    rfl
  show mergeLoopF w h t 2 [d1, d2] = _
  unfold mergeLoopF
  rw [habs]
  unfold mergeLoopF
  norm_num

/-- Witness for `merge_two_overlapping`: two concrete overlapping detections
with IoU exactly `0.6` and threshold `0.3` collapse to one merged detection. -/
theorem merge_two_overlapping_witness :
    ((8 : ℚ)/10 ≤ 9/10 ∧
      (3 : ℚ)/10 ≤ calculateIouPixels (BoxP.mk 0 0 80 10) (BoxP.mk 20 0 100 10)) ∧
    mergeNearbyDetections
        [Detection.mk [] (BoxP.mk 0 0 80 10) (9/10) 0 "room" "rectangle",
         Detection.mk [] (BoxP.mk 20 0 100 10) (8/10) 0 "room" "rectangle"]
        100 100 (3/10) =
      [mkMergedDetection 100 100
        (unionBox (BoxP.mk 0 0 80 10) (BoxP.mk 20 0 100 10)) ((9/10 + 8/10) / 2)
        (Detection.mk [] (BoxP.mk 0 0 80 10) (9/10) 0 "room" "rectangle")] :=
  ⟨⟨by norm_num, by norm_num [calculateIouPixels]⟩,
    merge_two_overlapping
      (Detection.mk [] (BoxP.mk 0 0 80 10) (9/10) 0 "room" "rectangle")
      (Detection.mk [] (BoxP.mk 20 0 100 10) (8/10) 0 "room" "rectangle")
      100 100 (3/10) (by norm_num) (by norm_num [calculateIouPixels])⟩

/-- C6 (counterexample): merge is not idempotent.  With threshold `0.3` and
detections `A = [0,0,10,10]@0.9`, `B = [11,0,21,10]@0.75`, `C = [0,0,30,10]@0.7`,
the first pass merges `C` into `A` (IoU 1/3) producing the cluster box
`[0,0,30,10]` but leaves `B` alone (IoU of `B` with `A`'s original seed box is
0); the second pass then merges `B` into that cluster (IoU 1/3), so the second
pass changes the result. -/
theorem merge_not_idempotent_counterexample :
    mergeNearbyDetections
        (mergeNearbyDetections
          [Detection.mk [] (BoxP.mk 0 0 10 10) (9/10) 0 "room" "rectangle",
           Detection.mk [] (BoxP.mk 11 0 21 10) (3/4) 0 "room" "rectangle",
           Detection.mk [] (BoxP.mk 0 0 30 10) (7/10) 0 "room" "rectangle"]
          100 100 (3/10))
        100 100 (3/10) ≠
      mergeNearbyDetections
        [Detection.mk [] (BoxP.mk 0 0 10 10) (9/10) 0 "room" "rectangle",
         Detection.mk [] (BoxP.mk 11 0 21 10) (3/4) 0 "room" "rectangle",
         Detection.mk [] (BoxP.mk 0 0 30 10) (7/10) 0 "room" "rectangle"]
        100 100 (3/10) := by
  norm_num [mergeNearbyDetections, sortByConfDesc, List.insertionSort, List.orderedInsert,
    mergeLoopF, absorbScan, calculateIouPixels, unionBox, mkMergedDetection, normCoord, ratTrunc]

/-- C6 (amended): merge is not idempotent — a second pass can merge clusters
whose union boxes overlap even though the first pass's seed-box IoU tests did
not (see `merge_not_idempotent_counterexample`).  What does hold: every pass
consumes each detection at most once and emits one detection per seed, so
re-running merge never increases the number of detections, and in particular
`merge(merge(D,t),t)` has at most as many detections as `merge(D,t)`, which has
at most as many as `D`. -/
theorem merge_repeat_length_le (D : List Detection) (w h : ℤ) (t : ℚ) :
    (mergeNearbyDetections (mergeNearbyDetections D w h t) w h t).length ≤
        (mergeNearbyDetections D w h t).length ∧
      (mergeNearbyDetections D w h t).length ≤ D.length :=
  ⟨mergeNearbyDetections_length_le _ _ _ _, mergeNearbyDetections_length_le _ _ _ _⟩

/-- C7 (counterexample): the IoU threshold is not clamped into `[0,1]`.  Two
identical boxes have IoU `1`; with threshold `1.5` they are not merged (output
length 2), while with the clamped threshold `1` they are (output length 1) —
so a threshold above `1` does not behave like the nearest bound. -/
theorem merge_threshold_not_clamped_counterexample :
    (mergeNearbyDetections
        [Detection.mk [] (BoxP.mk 0 0 10 10) (9/10) 0 "room" "rectangle",
         Detection.mk [] (BoxP.mk 0 0 10 10) (8/10) 0 "room" "rectangle"]
        100 100 (3/2)).length = 2 ∧
    (mergeNearbyDetections
        [Detection.mk [] (BoxP.mk 0 0 10 10) (9/10) 0 "room" "rectangle",
         Detection.mk [] (BoxP.mk 0 0 10 10) (8/10) 0 "room" "rectangle"]
        100 100 1).length = 1 := by
  constructor <;>
    norm_num [mergeNearbyDetections, sortByConfDesc, List.insertionSort, List.orderedInsert,
      mergeLoopF, absorbScan, calculateIouPixels, unionBox, mkMergedDetection, normCoord, ratTrunc]

/-- C7 (amended): empty and singleton inputs are returned unchanged, and the
threshold is compared against IoU values that always lie in `[0,1]`, so every
threshold `≤ 0` behaves exactly like threshold `0` (every comparison succeeds);
but thresholds `> 1` are *not* clamped to `1`: no comparison ever succeeds, so
all of them behave alike — and differently from `1` on inputs containing
identical boxes (see `merge_threshold_not_clamped_counterexample`). -/
theorem merge_edge_cases (D : List Detection) (w h : ℤ) :
    (D.length ≤ 1 → ∀ t : ℚ, mergeNearbyDetections D w h t = D) ∧
    (∀ t : ℚ, t ≤ 0 → mergeNearbyDetections D w h t = mergeNearbyDetections D w h 0) ∧
    (∀ t t' : ℚ, 1 < t → 1 < t' →
      mergeNearbyDetections D w h t = mergeNearbyDetections D w h t') := by
  refine ⟨fun hlen t => ?_, fun t ht => ?_, fun t t' ht ht' => ?_⟩
  · unfold mergeNearbyDetections
    rw [if_pos hlen]
  · unfold mergeNearbyDetections
    split_ifs with hlen
    · rfl
    · exact mergeLoopF_congr w h
        (fun a b => iff_of_true (le_trans ht (calculateIouPixels_nonneg a b))
          (calculateIouPixels_nonneg a b)) _ _
  · unfold mergeNearbyDetections
    split_ifs with hlen
    · rfl
    · exact mergeLoopF_congr w h
        (fun a b => iff_of_false
          (fun hle => absurd (le_trans hle (calculateIouPixels_le_one a b)) (not_le.mpr ht))
          (fun hle => absurd (le_trans hle (calculateIouPixels_le_one a b)) (not_le.mpr ht'))) _ _

/-- Witness for `merge_edge_cases`: a singleton list is returned unchanged, a
threshold of `-1` behaves like `0`, and thresholds `1.5` and `2` behave alike. -/
theorem merge_edge_cases_witness :
    ([Detection.mk [] (BoxP.mk 0 0 10 10) (9/10) 0 "room" "rectangle"].length ≤ 1 ∧
      mergeNearbyDetections
          [Detection.mk [] (BoxP.mk 0 0 10 10) (9/10) 0 "room" "rectangle"]
          100 100 (1/2) =
        [Detection.mk [] (BoxP.mk 0 0 10 10) (9/10) 0 "room" "rectangle"]) ∧
    ((-1 : ℚ) ≤ 0 ∧
      mergeNearbyDetections
          [Detection.mk [] (BoxP.mk 0 0 10 10) (9/10) 0 "room" "rectangle",
           Detection.mk [] (BoxP.mk 3 0 13 10) (8/10) 0 "room" "rectangle"]
          100 100 (-1) =
        mergeNearbyDetections
          [Detection.mk [] (BoxP.mk 0 0 10 10) (9/10) 0 "room" "rectangle",
           Detection.mk [] (BoxP.mk 3 0 13 10) (8/10) 0 "room" "rectangle"]
          100 100 0) ∧
    ((1 : ℚ) < 3/2 ∧ (1 : ℚ) < 2 ∧
      mergeNearbyDetections
          [Detection.mk [] (BoxP.mk 0 0 10 10) (9/10) 0 "room" "rectangle",
           Detection.mk [] (BoxP.mk 3 0 13 10) (8/10) 0 "room" "rectangle"]
          100 100 (3/2) =
        mergeNearbyDetections
          [Detection.mk [] (BoxP.mk 0 0 10 10) (9/10) 0 "room" "rectangle",
           Detection.mk [] (BoxP.mk 3 0 13 10) (8/10) 0 "room" "rectangle"]
          100 100 2) :=
  ⟨⟨by decide,
    (merge_edge_cases
      [Detection.mk [] (BoxP.mk 0 0 10 10) (9/10) 0 "room" "rectangle"] 100 100).1
      (by decide) (1/2)⟩,
   ⟨by norm_num,
    (merge_edge_cases
      [Detection.mk [] (BoxP.mk 0 0 10 10) (9/10) 0 "room" "rectangle",
       Detection.mk [] (BoxP.mk 3 0 13 10) (8/10) 0 "room" "rectangle"] 100 100).2.1
      (-1) (by norm_num)⟩,
   by norm_num,
   by norm_num,
   (merge_edge_cases
      [Detection.mk [] (BoxP.mk 0 0 10 10) (9/10) 0 "room" "rectangle",
       Detection.mk [] (BoxP.mk 3 0 13 10) (8/10) 0 "room" "rectangle"] 100 100).2.2
      (3/2) 2 (by norm_num) (by norm_num)⟩

/-- C10: IoU is symmetric for all boxes, including degenerate ones: the
max/min intersection corners and the `area1 + area2 - intersection` union are
commutative in the two boxes. -/
theorem iou_comm (a b : BoxP) :
    calculateIouPixels a b = calculateIouPixels b a := by
  unfold calculateIouPixels
  dsimp only
  rw [max_comm a.x1 b.x1, max_comm a.y1 b.y1, min_comm a.x2 b.x2, min_comm a.y2 b.y2,
    add_comm ((a.x2 - a.x1) * (a.y2 - a.y1)) ((b.x2 - b.x1) * (b.y2 - b.y1))]

end YOLOInference

namespace GeometricRoomDetector

/-- C8 (counterexample): the constructor does not validate its configuration.
With the even `kernel_size = 4` (and any `epsilon_factor`), `__init__` succeeds
and stores the parameters — no typed `ConfigurationError` is raised before
processing, contradicting the claimed fail-loudly contract.  `_extract_rooms`
then proceeds normally under that configuration (here on an empty stats array,
silently returning an empty, plausible room list). -/
theorem init_accepts_even_kernel_counterexample :
    init 2000 4 (1/100) = .ok ⟨2000, 4, 1/100⟩ ∧
    extractRooms ⟨2000, 4, 1/100⟩ [] (fun _ => none) 100 100 = [] := by
  constructor
  · rfl
  · rfl

/-- C8 (amended): the code performs no configuration validation at all.  Every
`kernel_size ≥ 0` — even or odd — together with any `min_room_area`, any
`epsilon_factor` (including `≤ 0`), is accepted silently; the only constructor
failure is the incidental untyped numpy `ValueError` when `kernel_size < 0`
(negative array dimension), not a typed configuration error. -/
theorem init_no_validation (minRoomArea kernelSize : ℤ) (epsilonFactor : ℚ) :
    (0 ≤ kernelSize →
      init minRoomArea kernelSize epsilonFactor =
        .ok ⟨minRoomArea, kernelSize, epsilonFactor⟩) ∧
    (kernelSize < 0 →
      init minRoomArea kernelSize epsilonFactor = .error .negativeKernelDimension) := by
  constructor
  · intro hk
    unfold init
    rw [if_neg (not_lt.mpr hk)]
  · intro hk
    unfold init
    rw [if_pos hk]

/-- Witness for `init_no_validation`: even kernel size 4 with non-positive
`epsilon_factor` is accepted; kernel size `-1` errors. -/
theorem init_no_validation_witness :
    ((0 : ℤ) ≤ 4 ∧ init 2000 4 (-1) = .ok ⟨2000, 4, -1⟩) ∧
    ((-1 : ℤ) < 0 ∧ init 2000 (-1) (1/100) = .error .negativeKernelDimension) :=
  ⟨⟨by norm_num, (init_no_validation 2000 4 (-1)).1 (by norm_num)⟩,
   ⟨by norm_num, (init_no_validation 2000 (-1) (1/100)).2 (by norm_num)⟩⟩

lemma clampCoord_nonneg (v bound : ℤ) : 0 ≤ clampCoord v bound :=
  le_max_left 0 _

lemma clampCoord_le (v bound : ℤ) (hb : 1 ≤ bound) : clampCoord v bound ≤ bound - 1 :=
  max_le (by linarith) (min_le_right _ _)

/-- C2: `_draw_walls` clips every wall box to `[0, width-1] × [0, height-1]`
(silently, totally — never an error): no painted pixel lies outside the grid,
even for input coordinates outside `[0,width) × [0,height)`; and every wall —
including boxes degenerate after clipping — paints at least the pixel at its
clamped `(x1, y1)` corner, never nothing. -/
theorem draw_walls_clipped (walls : List YOLOInference.BoxP) (w h : ℤ)
    (hw : 1 ≤ w) (hh : 1 ≤ h) :
    (∀ p : ℤ × ℤ, drawWalls walls w h p = true →
      0 ≤ p.1 ∧ p.1 < w ∧ 0 ≤ p.2 ∧ p.2 < h) ∧
    (∀ wall ∈ walls,
      drawWalls walls w h (clampCoord wall.x1 w, clampCoord wall.y1 h) = true) := by
  constructor
  · intro p hp
    rw [drawWalls, List.any_eq_true] at hp
    obtain ⟨wall, _, hpaint⟩ := hp
    rw [wallPaints, decide_eq_true_eq] at hpaint
    obtain ⟨hx1, hx2, hy1, hy2⟩ := hpaint
    have h1 := clampCoord_nonneg wall.x1 w
    have h2 := clampCoord_nonneg wall.x2 w
    have h3 := clampCoord_nonneg wall.y1 h
    have h4 := clampCoord_nonneg wall.y2 h
    have h5 := clampCoord_le wall.x1 w hw
    have h6 := clampCoord_le wall.x2 w hw
    have h7 := clampCoord_le wall.y1 h hh
    have h8 := clampCoord_le wall.y2 h hh
    refine ⟨le_trans (le_min h1 h2) hx1, ?_, le_trans (le_min h3 h4) hy1, ?_⟩
    · have : max (clampCoord wall.x1 w) (clampCoord wall.x2 w) ≤ w - 1 := max_le h5 h6
      linarith
    · have : max (clampCoord wall.y1 h) (clampCoord wall.y2 h) ≤ h - 1 := max_le h7 h8
      linarith
  · intro wall hmem
    rw [drawWalls, List.any_eq_true]
    refine ⟨wall, hmem, ?_⟩
    rw [wallPaints, decide_eq_true_eq]
    exact ⟨min_le_left _ _, le_max_left _ _, min_le_left _ _, le_max_left _ _⟩

/-- Witness for `draw_walls_clipped`: a 100×50 grid with one wall whose
coordinates stick out on every side still paints its clamped corner, and a
concrete painted pixel is in bounds. -/
theorem draw_walls_clipped_witness :
    ((1 : ℤ) ≤ 100 ∧ (1 : ℤ) ≤ 50) ∧
    (∀ p : ℤ × ℤ, drawWalls [YOLOInference.BoxP.mk (-5) (-7) 300 2] 100 50 p = true →
      0 ≤ p.1 ∧ p.1 < 100 ∧ 0 ≤ p.2 ∧ p.2 < 50) ∧
    drawWalls [YOLOInference.BoxP.mk (-5) (-7) 300 2] 100 50
      (clampCoord (-5) 100, clampCoord (-7) 50) = true := by
  refine ⟨⟨by norm_num, by norm_num⟩,
    (draw_walls_clipped [YOLOInference.BoxP.mk (-5) (-7) 300 2] 100 50
      (by norm_num) (by norm_num)).1, ?_⟩
  exact (draw_walls_clipped [YOLOInference.BoxP.mk (-5) (-7) 300 2] 100 50
    (by norm_num) (by norm_num)).2 _ (List.mem_singleton.mpr rfl)

end GeometricRoomDetector

namespace GeometricRoomDetector

/-- Structural bounds on every room built by the `_extract_rooms` loop: its
area passed the `min_room_area ≤ area ≤ max_area` filter, and it was built from
the component row at some offset `i` of the scanned list (label `label + i`,
area copied from that row). -/
lemma extractLoop_mem_spec (mra : ℤ) (maxA : ℚ) (poly : ℕ → Option (List (ℤ × ℤ))) :
    ∀ (cs : List CompStat) (label k : ℕ) (r : RoomRec),
      r ∈ extractLoop mra maxA poly label k cs →
      mra ≤ (r.areaPixels : ℤ) ∧ (r.areaPixels : ℚ) ≤ maxA ∧
        ∃ i c, cs[i]? = some c ∧ r.label = label + i ∧ r.areaPixels = c.area := by
  intro cs
  induction cs with
  | nil =>
    intro label k r hr
    simp [extractLoop] at hr
  | cons c cs ih =>
    intro label k r hr
    simp only [extractLoop] at hr
    split_ifs at hr with hfil
    · obtain ⟨h1, h2, i, c', hget, hlab, harea⟩ := ih (label + 1) k r hr
      exact ⟨h1, h2, i + 1, c', by simpa using hget, by omega, harea⟩
    · push_neg at hfil
      cases hcp : poly label with
      | none =>
        rw [hcp] at hr
        simp only at hr
        obtain ⟨h1, h2, i, c', hget, hlab, harea⟩ := ih (label + 1) k r hr
        exact ⟨h1, h2, i + 1, c', by simpa using hget, by omega, harea⟩
      | some verts =>
        rw [hcp] at hr
        simp only at hr
        rcases List.mem_cons.mp hr with rfl | hr
        · exact ⟨hfil.1, hfil.2, 0, c, by simp, by simp, rfl⟩
        · obtain ⟨h1, h2, i, c', hget, hlab, harea⟩ := ih (label + 1) (k + 1) r hr
          exact ⟨h1, h2, i + 1, c', by simpa using hget, by omega, harea⟩

/-- The loop scans labels in increasing order, so the rooms it emits carry
strictly increasing component labels. -/
lemma extractLoop_label_lt (mra : ℤ) (maxA : ℚ) (poly : ℕ → Option (List (ℤ × ℤ))) :
    ∀ (cs : List CompStat) (label k : ℕ),
      List.Pairwise (fun a b => a.label < b.label) (extractLoop mra maxA poly label k cs) := by
  intro cs
  induction cs with
  | nil =>
    intro label k
    simp [extractLoop]
  | cons c cs ih =>
    intro label k
    simp only [extractLoop]
    split_ifs with hfil
    · exact ih (label + 1) k
    · cases hcp : poly label with
      | none => exact ih (label + 1) k
      | some verts =>
        refine List.pairwise_cons.mpr ⟨?_, ih (label + 1) (k + 1)⟩
        intro r hr
        obtain ⟨-, -, i, c', -, hlab, -⟩ := extractLoop_mem_spec mra maxA poly cs (label + 1) (k + 1) r hr
        simp only
        omega

/-- Ids are handed out sequentially: the loop started with `k` rooms already
emitted produces rooms numbered `k+1, k+2, …` in emission order. -/
lemma extractLoop_map_idNum (mra : ℤ) (maxA : ℚ) (poly : ℕ → Option (List (ℤ × ℤ))) :
    ∀ (cs : List CompStat) (label k : ℕ),
      (extractLoop mra maxA poly label k cs).map RoomRec.idNum =
        List.range' (k + 1) (extractLoop mra maxA poly label k cs).length := by
  intro cs
  induction cs with
  | nil =>
    intro label k
    simp [extractLoop]
  | cons c cs ih =>
    intro label k
    simp only [extractLoop]
    split_ifs with hfil
    · exact ih (label + 1) k
    · cases hcp : poly label with
      | none => exact ih (label + 1) k
      | some verts =>
        simp only [List.map_cons, List.length_cons, List.range'_succ]
        exact congrArg _ (ih (label + 1) (k + 1))

/-- Both disjuncts of the output order relation imply the area inequality. -/
lemma roomOrder_area_le {a b : RoomRec}
    (h : b.areaPixels < a.areaPixels ∨ (a.areaPixels = b.areaPixels ∧ a.label < b.label)) :
    b.areaPixels ≤ a.areaPixels := by
  rcases h with h | ⟨h, -⟩
  · exact le_of_lt h
  · exact le_of_eq h.symm

/-- Stability of the insertion step: inserting a room whose label is smaller
than every label in the list preserves the "descending area, ties by ascending
label" pairwise order. -/
lemma orderedInsert_pairwise_stable (x : RoomRec) :
    ∀ (l : List RoomRec),
      List.Pairwise (fun a b => b.areaPixels < a.areaPixels ∨
        (a.areaPixels = b.areaPixels ∧ a.label < b.label)) l →
      (∀ y ∈ l, x.label < y.label) →
      List.Pairwise (fun a b => b.areaPixels < a.areaPixels ∨
        (a.areaPixels = b.areaPixels ∧ a.label < b.label))
        (List.orderedInsert (fun a b => b.areaPixels ≤ a.areaPixels) x l) := by
  intro l
  induction l with
  | nil =>
    intro _ _
    simp
  | cons y ys ih =>
    intro hl hlab
    rw [List.orderedInsert]
    split_ifs with hxy
    · have hall : ∀ z ∈ y :: ys, z.areaPixels ≤ x.areaPixels := by
        intro z hz
        rcases List.mem_cons.mp hz with rfl | hz
        · exact hxy
        · exact le_trans (roomOrder_area_le ((List.pairwise_cons.mp hl).1 z hz)) hxy
      refine List.pairwise_cons.mpr ⟨?_, hl⟩
      intro z hz
      rcases lt_or_eq_of_le (hall z hz) with h | h
      · exact Or.inl h
      · exact Or.inr ⟨h.symm, hlab z hz⟩
    · refine List.pairwise_cons.mpr ⟨?_, ih (List.pairwise_cons.mp hl).2
        (fun z hz => hlab z (List.mem_cons_of_mem _ hz))⟩
      intro z hz
      rcases (List.mem_orderedInsert _).mp hz with rfl | hz
      · exact Or.inl (not_le.mp hxy)
      · exact (List.pairwise_cons.mp hl).1 z hz

/-- The stable descending-area sort of a list with strictly increasing labels
is pairwise ordered by descending area with ties broken by ascending label. -/
lemma sortRoomsDesc_pairwise_stable :
    ∀ (l : List RoomRec),
      List.Pairwise (fun a b => a.label < b.label) l →
      List.Pairwise (fun a b => b.areaPixels < a.areaPixels ∨
        (a.areaPixels = b.areaPixels ∧ a.label < b.label)) (sortRoomsDesc l) := by
  intro l
  induction l with
  | nil =>
    intro _
    simp [sortRoomsDesc]
  | cons x xs ih =>
    intro hl
    show List.Pairwise _ (List.orderedInsert _ x (List.insertionSort _ xs))
    exact orderedInsert_pairwise_stable x _ (ih (List.pairwise_cons.mp hl).2)
      (fun y hy => (List.pairwise_cons.mp hl).1 y
        ((List.perm_insertionSort _ xs).mem_iff.mp hy))

/-- C3: every room returned by `_extract_rooms` satisfies
`min_room_area ≤ area_pixels ≤ 0.9 * width * height`, and the background
component (label 0) never appears: all output rooms come from labels ≥ 1
(the loop starts at label 1). -/
theorem room_bounds (cfg : Config) (comps : List CompStat)
    (poly : ℕ → Option (List (ℤ × ℤ))) (width height : ℤ) :
    ∀ r ∈ extractRooms cfg comps poly width height,
      cfg.minRoomArea ≤ (r.areaPixels : ℤ) ∧
      (r.areaPixels : ℚ) ≤ (width : ℚ) * (height : ℚ) * (9/10) ∧
      1 ≤ r.label := by
  intro r hr
  simp only [extractRooms] at hr
  have hr' : r ∈ extractLoop cfg.minRoomArea ((width : ℚ) * (height : ℚ) * (9/10)) poly
      1 0 (comps.drop 1) := (List.perm_insertionSort _ _).subset hr
  obtain ⟨h1, h2, i, c, -, hlab, -⟩ :=
    extractLoop_mem_spec _ _ poly (comps.drop 1) 1 0 r hr'
  exact ⟨h1, h2, by omega⟩

/-- Witness for `room_bounds`: a 100×100 canvas with one non-background
component of area 900 and `min_room_area = 100` yields one room, whose area is
within the bounds and whose label is 1. -/
theorem room_bounds_witness :
    RoomRec.mk 1 [(0,0),(5,0),(5,5),(0,5)] 10 10 40 40 900
        (YOLOInference.ratTrunc 25, YOLOInference.ratTrunc 25)
        (calculateConfidence 900 4) (shapeTypeOf 4) 4 1 ∈
      extractRooms (Config.mk 100 3 (1/100))
        [CompStat.mk 0 0 0 0 0 0 0, CompStat.mk 10 10 30 30 900 25 25]
        (fun _ => some [(0,0),(5,0),(5,5),(0,5)]) 100 100 ∧
    ((Config.mk 100 3 (1/100)).minRoomArea ≤ ((900 : ℕ) : ℤ) ∧
      ((900 : ℕ) : ℚ) ≤ ((100 : ℤ) : ℚ) * ((100 : ℤ) : ℚ) * (9/10) ∧
      (1 : ℕ) ≤ 1) := by
  have hE : extractRooms (Config.mk 100 3 (1/100))
      [CompStat.mk 0 0 0 0 0 0 0, CompStat.mk 10 10 30 30 900 25 25]
      (fun _ => some [(0,0),(5,0),(5,5),(0,5)]) 100 100 =
      [RoomRec.mk 1 [(0,0),(5,0),(5,5),(0,5)] 10 10 40 40 900
        (YOLOInference.ratTrunc 25, YOLOInference.ratTrunc 25)
        (calculateConfidence 900 4) (shapeTypeOf 4) 4 1] := by
    norm_num [extractRooms, extractLoop, sortRoomsDesc, List.insertionSort, List.orderedInsert]
  have hmem : RoomRec.mk 1 [(0,0),(5,0),(5,5),(0,5)] 10 10 40 40 900
      (YOLOInference.ratTrunc 25, YOLOInference.ratTrunc 25)
      (calculateConfidence 900 4) (shapeTypeOf 4) 4 1 ∈
      extractRooms (Config.mk 100 3 (1/100))
        [CompStat.mk 0 0 0 0 0 0 0, CompStat.mk 10 10 30 30 900 25 25]
        (fun _ => some [(0,0),(5,0),(5,5),(0,5)]) 100 100 := by
    rw [hE]
    exact List.mem_singleton.mpr rfl
  exact ⟨hmem, room_bounds (Config.mk 100 3 (1/100))
    [CompStat.mk 0 0 0 0 0 0 0, CompStat.mk 10 10 30 30 900 25 25]
    (fun _ => some [(0,0),(5,0),(5,5),(0,5)]) 100 100 _ hmem⟩

end GeometricRoomDetector

namespace GeometricRoomDetector

/-- C5 (counterexample): ids are assigned *before* the final sort, so they are
not in output order.  Two qualifying components with areas 200 (label 1, id 1)
and 900 (label 2, id 2): the descending-area sort puts the area-900 room first,
so the returned ids read `[2, 1]`, not `[1, 2]` — the first room of the output
does not carry id `room_001`. -/
theorem room_ids_not_output_order_counterexample :
    (extractRooms (Config.mk 100 3 (1/100))
        [CompStat.mk 0 0 0 0 0 0 0, CompStat.mk 0 0 20 10 200 5 5,
          CompStat.mk 30 0 30 30 900 45 15]
        (fun _ => some [(0,0),(1,0),(1,1),(0,1)]) 100 100).map RoomRec.idNum ≠
      List.range' 1 ((extractRooms (Config.mk 100 3 (1/100))
        [CompStat.mk 0 0 0 0 0 0 0, CompStat.mk 0 0 20 10 200 5 5,
          CompStat.mk 30 0 30 30 900 45 15]
        (fun _ => some [(0,0),(1,0),(1,1),(0,1)]) 100 100).length) := by
  norm_num [extractRooms, extractLoop, sortRoomsDesc, List.insertionSort,
    List.orderedInsert, List.range']

/-- C5 (amended): the returned room list is sorted by descending `area_pixels`
with ties broken by ascending component label (Python's stable sort applied to
the ascending-label emission order), and the numeric parts of the ids
`room_{n:03d}` are exactly `1 .. len(rooms)` — unique — but only as a
*permutation*: ids are assigned in emission (ascending-label) order before the
sort, so the n-th room of the output need not carry id `room_{n:03d}`
(see `room_ids_not_output_order_counterexample`). -/
theorem rooms_sorted_desc_ids_unique (cfg : Config) (comps : List CompStat)
    (poly : ℕ → Option (List (ℤ × ℤ))) (width height : ℤ) :
    List.Pairwise (fun a b => b.areaPixels < a.areaPixels ∨
        (a.areaPixels = b.areaPixels ∧ a.label < b.label))
      (extractRooms cfg comps poly width height) ∧
    ((extractRooms cfg comps poly width height).map RoomRec.idNum).Perm
      (List.range' 1 (extractRooms cfg comps poly width height).length) := by
  constructor
  · simp only [extractRooms]
    exact sortRoomsDesc_pairwise_stable _
      (extractLoop_label_lt _ _ poly (comps.drop 1) 1 0)
  · simp only [extractRooms]
    have hperm : List.Perm
        (sortRoomsDesc (extractLoop cfg.minRoomArea
          ((width : ℚ) * (height : ℚ) * (9/10)) poly 1 0 (comps.drop 1)))
        (extractLoop cfg.minRoomArea
          ((width : ℚ) * (height : ℚ) * (9/10)) poly 1 0 (comps.drop 1)) :=
      List.perm_insertionSort _ _
    rw [hperm.length_eq]
    have hmap := extractLoop_map_idNum cfg.minRoomArea
      ((width : ℚ) * (height : ℚ) * (9/10)) poly (comps.drop 1) 1 0
    rw [show (0 : ℕ) + 1 = 1 from rfl] at hmap
    rw [← hmap]
    exact (hperm.map RoomRec.idNum)

/-- The per-label pixel counts of a labeling, summed over any set of labels,
cannot exceed the number of grid pixels: the fibers of `L` are disjoint. -/
lemma sum_labelArea_le (L : ℕ → ℕ → ℕ) (w h : ℕ) (T : Finset ℕ) :
    ∑ l ∈ T, labelArea L w h l ≤ w * h := by
  have hsub : ∀ l ∈ T,
      ((Finset.range w ×ˢ Finset.range h).filter
          (fun p => L p.1 p.2 ∈ T)).filter (fun p => L p.1 p.2 = l) =
        (Finset.range w ×ˢ Finset.range h).filter (fun p => L p.1 p.2 = l) := by
    intro l hl
    ext p
    simp only [Finset.mem_filter]
    constructor
    · rintro ⟨⟨hp, -⟩, he⟩
      exact ⟨hp, he⟩
    · rintro ⟨hp, he⟩
      exact ⟨⟨hp, he ▸ hl⟩, he⟩
  have hmaps : ∀ p ∈ (Finset.range w ×ˢ Finset.range h).filter
      (fun p => L p.1 p.2 ∈ T), L p.1 p.2 ∈ T :=
    fun p hp => (Finset.mem_filter.mp hp).2
  have hcard := Finset.card_eq_sum_card_fiberwise hmaps
  calc ∑ l ∈ T, labelArea L w h l
      = ∑ l ∈ T, (((Finset.range w ×ˢ Finset.range h).filter
          (fun p => L p.1 p.2 ∈ T)).filter (fun p => L p.1 p.2 = l)).card :=
        Finset.sum_congr rfl (fun l hl => by rw [hsub l hl]; rfl)
    _ = ((Finset.range w ×ˢ Finset.range h).filter (fun p => L p.1 p.2 ∈ T)).card :=
        hcard.symm
    _ ≤ (Finset.range w ×ˢ Finset.range h).card := Finset.card_filter_le _ _
    _ = w * h := by rw [Finset.card_product, Finset.card_range, Finset.card_range]

/-- If every scanned component row carries the pixel count of its label under
`L`, then the total area of the extracted (and sorted) rooms is bounded by the
grid size: distinct rooms come from distinct labels, whose fibers are disjoint
subsets of the grid. -/
lemma extract_sum_le (L : ℕ → ℕ → ℕ) (w h : ℕ) (poly : ℕ → Option (List (ℤ × ℤ)))
    (cs : List CompStat) (mra : ℤ) (maxA : ℚ)
    (hcs : ∀ i c, cs[i]? = some c → c.area = labelArea L w h (1 + i)) :
    ((sortRoomsDesc (extractLoop mra maxA poly 1 0 cs)).map RoomRec.areaPixels).sum ≤
      w * h := by
  have hperm : ((sortRoomsDesc (extractLoop mra maxA poly 1 0 cs)).map
      RoomRec.areaPixels).sum = ((extractLoop mra maxA poly 1 0 cs).map
      RoomRec.areaPixels).sum :=
    ((List.perm_insertionSort _ _).map RoomRec.areaPixels).sum_eq
  rw [hperm]
  have harea : ∀ r ∈ extractLoop mra maxA poly 1 0 cs,
      RoomRec.areaPixels r = labelArea L w h r.label := by
    intro r hr
    obtain ⟨-, -, i, c, hget, hlab, ha⟩ := extractLoop_mem_spec mra maxA poly cs 1 0 r hr
    rw [ha, hlab]
    exact hcs i c hget
  rw [show (extractLoop mra maxA poly 1 0 cs).map RoomRec.areaPixels =
      (extractLoop mra maxA poly 1 0 cs).map (fun r => labelArea L w h r.label) from
    List.map_congr_left harea]
  rw [show (extractLoop mra maxA poly 1 0 cs).map (fun r => labelArea L w h r.label) =
      ((extractLoop mra maxA poly 1 0 cs).map RoomRec.label).map (labelArea L w h) from by
    rw [List.map_map]; rfl]
  have hnodup : ((extractLoop mra maxA poly 1 0 cs).map RoomRec.label).Nodup :=
    List.Pairwise.imp (fun hab => Nat.ne_of_lt hab)
      (List.pairwise_map.mpr (extractLoop_label_lt mra maxA poly cs 1 0))
  rw [← List.sum_toFinset _ hnodup]
  exact sum_labelArea_le L w h _

/-- C4: for any labeling of the `w × h` grid (standing for the cv2
connected-components output) and any `width, height ≥ 1`, the pixel areas of
the rooms returned by the pipeline sum to at most `width * height`: the rooms
come from pairwise-distinct labels, whose pixel sets are pairwise-disjoint
subsets of the grid. -/
theorem rooms_total_area_le (cfg : Config) (L : ℕ → ℕ → ℕ) (numLabels : ℕ)
    (poly : ℕ → Option (List (ℤ × ℤ))) (w h : ℕ) (_hw : 1 ≤ w) (_hh : 1 ≤ h) :
    ((detectRoomsFromLabeling cfg L numLabels poly w h).map RoomRec.areaPixels).sum ≤
      w * h := by
  simp only [detectRoomsFromLabeling, extractRooms]
  refine extract_sum_le L w h poly _ _ _ ?_
  intro i c hget
  rw [List.getElem?_drop] at hget
  rw [statsFromLabeling, List.getElem?_map] at hget
  cases hrange : (List.range numLabels)[1 + i]? with
  | none =>
    rw [hrange] at hget
    simp at hget
  | some l0 =>
    have hl0 : l0 = 1 + i := by
      have hlt : 1 + i < numLabels := by
        by_contra hge
        rw [List.getElem?_eq_none (by simpa using Nat.le_of_not_lt hge)] at hrange
        simp at hrange
      rw [List.getElem?_range hlt] at hrange
      exact (Option.some_inj.mp hrange).symm
    rw [hrange, Option.map_some'] at hget
    rw [← Option.some_inj.mp hget, ← hl0]
    rfl

/-- Witness for `rooms_total_area_le`: a concrete 2×2 grid with a two-label
labeling. -/
theorem rooms_total_area_le_witness :
    (1 ≤ 2 ∧ 1 ≤ 2) ∧
    ((detectRoomsFromLabeling (Config.mk 1 3 (1/100)) (fun x _ => x) 2
        (fun _ => some [(0,0),(1,0),(1,1),(0,1)]) 2 2).map RoomRec.areaPixels).sum ≤
      2 * 2 :=
  ⟨⟨by norm_num, by norm_num⟩,
    rooms_total_area_le (Config.mk 1 3 (1/100)) (fun x _ => x) 2
      (fun _ => some [(0,0),(1,0),(1,1),(0,1)]) 2 2 (by norm_num) (by norm_num)⟩

end GeometricRoomDetector
